import Mathlib

/-!
Verification of the event-queue / state-synchronization client in
`src/reflex/.templates/web/utils/state.js`.

JavaScript objects are modelled as association lists (`Obj`), JS values as a
small inductive `JVal` (null / bool / integer / string), and the stateful
parts (the event queue with its processing gate, the connection-error list,
the upload-session table, the streamed-upload cursor, the session token) as
explicit state-passing functions or labelled transition systems.
-/

namespace StateJs

/-- A JavaScript object: an association list from property names to values.
JS objects have unique keys; lookups below return the first matching entry,
which coincides with JS semantics on key-unique lists. -/
abbrev Obj (V : Type) := List (String × V)

/-- Property lookup, `o[k]`: `none` models the property being absent
(JS `undefined` from a missing key). -/
def jget {V : Type} (o : Obj V) (k : String) : Option V :=
  (o.find? (fun p => p.1 == k)).map Prod.snd

/-- Shallow merge of two objects, the JS spread `{...state, ...delta}`
(`applyDelta`, state.js lines 113-115): every key of `state` keeps its value
unless `delta` overrides it, and keys of `delta` absent from `state` are
appended after, preserving JS key order. -/
def applyDelta {V : Type} (state delta : Obj V) : Obj V :=
  state.map (fun p => (p.1, ((jget delta p.1).getD p.2))) ++
    delta.filter (fun p => (jget state p.1).isNone)

/-- Property assignment `o[k] = v`, expressed through the spread merge. -/
def jset {V : Type} (o : Obj V) (k : String) (v : V) : Obj V :=
  applyDelta o [(k, v)]

/-- A JavaScript value as it appears in deltas: null, boolean, integer or
string (floats and nested objects are not needed by any claim about
storage/merge behaviour; the delta's substate level is kept as `Obj JVal`). -/
inductive JVal where
  | null
  | bool (b : Bool)
  | num (n : Int)
  | str (s : String)
  deriving DecidableEq, Repr

/-- JS truthiness of a `JVal` (`!v` in the source negates this):
`null`, `false`, `0` and the empty string are falsy. -/
def truthy : JVal → Bool
  | .null => false
  | .bool b => b
  | .num n => n != 0
  | .str s => s != ""

theorem jget_nil {V : Type} (k : String) : jget ([] : Obj V) k = none := rfl

theorem jget_cons {V : Type} (p : String × V) (o : Obj V) (k : String) :
    jget (p :: o) k = if p.1 == k then some p.2 else jget o k := by
  by_cases h : p.1 == k <;> simp [jget, List.find?, h]

theorem jget_filter_of_none {V : Type} (state delta : Obj V) (k : String)
    (h : jget state k = none) :
    jget (delta.filter (fun p => (jget state p.1).isNone)) k = jget delta k := by
  induction delta with
  | nil => rfl
  | cons q rest ih =>
      by_cases hq : q.1 == k
      · have hk : q.1 = k := eq_of_beq hq
        have : (jget state q.1).isNone = true := by rw [hk, h]; rfl
        simp only [List.filter, this, jget_cons, hq, if_pos]
      · by_cases hkeep : (jget state q.1).isNone = true
        · simp only [List.filter, hkeep, jget_cons, hq, if_neg, Bool.false_eq_true,
            not_false_iff]
          simpa [jget_cons, hq] using ih
        · simp only [List.filter, hkeep]
          rw [ih, jget_cons]
          simp [hq]

theorem jget_map_upd {V : Type} (state delta : Obj V) (k : String) :
    jget (state.map (fun p => (p.1, ((jget delta p.1).getD p.2)))) k =
      (jget state k).map (fun v => (jget delta k).getD v) := by
  induction state with
  | nil => rfl
  | cons p rest ih =>
      by_cases hp : p.1 == k
      · have hk : p.1 = k := eq_of_beq hp
        simp [List.map, jget_cons, hp, hk]
      · simp [List.map, jget_cons, hp, ih]

theorem jget_append {V : Type} (o₁ o₂ : Obj V) (k : String) :
    jget (o₁ ++ o₂) k =
      match jget o₁ k with
      | some v => some v
      | none => jget o₂ k := by
  induction o₁ with
  | nil => simp [jget_nil]
  | cons p rest ih =>
      by_cases hp : p.1 == k
      · simp [jget_cons, hp]
      · simpa [jget_cons, hp] using ih

/-- Lookup in a spread merge: the delta wins when it has the key, otherwise
the state's value survives. -/
theorem jget_applyDelta {V : Type} (state delta : Obj V) (k : String) :
    jget (applyDelta state delta) k =
      match jget delta k with
      | some v => some v
      | none => jget state k := by
  unfold applyDelta
  rw [jget_append, jget_map_upd]
  cases hs : jget state k with
  | some v =>
      cases hd : jget delta k with
      | some w => simp [hd]
      | none => simp [hd]
  | none =>
      rw [jget_filter_of_none state delta k hs]
      cases hd : jget delta k <;> simp [hd]

theorem jget_jset_same {V : Type} (o : Obj V) (k : String) (v : V) :
    jget (jset o k v) k = some v := by
  rw [jset, jget_applyDelta, jget_cons]
  simp

theorem jget_jset_other {V : Type} (o : Obj V) (k k' : String) (v : V)
    (h : k' ≠ k) : jget (jset o k' v) k = jget o k := by
  rw [jset, jget_applyDelta, jget_cons]
  have : (k' == k) = false := by simpa using h
  simp [this, jget_nil]

/-- An event as built by `Event(name, payload, handler)` (state.js lines
448-450) and possibly enriched before dispatch: `token` and `router_data`
start absent (`none` models the JS property being `undefined`/`null`). -/
structure Evt where
  name : String
  payload : Obj JVal
  handler : Option String
  token : Option String
  router_data : Option (Obj JVal)
  deriving DecidableEq, Repr

/-- The special event names intercepted at the top of `applyEvent`
(state.js lines 126-204); each such branch returns `false` before the
token/router enrichment is reached. -/
def isSpecial (name : String) : Bool :=
  name ∈ ["_redirect", "_console", "_remove_cookie", "_clear_local_storage",
    "_remove_local_storage", "_set_clipboard", "_download", "_alert",
    "_set_focus", "_set_value", "_call_script"]

/-- The token/router enrichment block of `applyEvent` (state.js lines
206-217): `event.token = getToken()` is an unconditional assignment, while
`event.router_data` is replaced only when it is `undefined` or has no keys;
the replacement is the three-field object built from `Router`. -/
def enrichEvent (sessionToken : Option String) (routerObj : Obj JVal)
    (e : Evt) : Evt :=
  { e with
    token := sessionToken
    router_data :=
      match e.router_data with
      | none => some routerObj
      | some rd => if rd.isEmpty then some routerObj else some rd }

/-- The pure content of `applyEvent` (state.js lines 124-229): special
events are handled locally and return `false` (their side effects — routing,
clipboard, storage, script evaluation — are outside this model); all other
events are enriched and emitted on the socket when one is present. Returns
(eventSent, event after the in-place mutations). -/
def applyEventPure (sessionToken : Option String) (routerObj : Obj JVal)
    (socketUp : Bool) (e : Evt) : Bool × Evt :=
  if isSpecial e.name then (false, e)
  else
    let e' := enrichEvent sessionToken routerObj e
    (socketUp, e')

/-- Whether dispatching an event from `processEvent` (state.js lines
285-291) results in a network send, given a live socket: events carrying a
`handler` go through `applyRestEvent` which always returns `false`
(`uploadFiles` is deliberately not awaited, lines 240-250); special events
return `false` from `applyEvent`; every other event is emitted. -/
def eventSent (e : Evt) : Bool :=
  e.handler.isNone && !(isSpecial e.name)

/-- State of the queue/gate system: `queue` is `event_queue`, `processing`
is `event_processing` (state.js lines 36-38); `dispatching` holds the event
popped by `processEvent` between `event_queue.shift()` and the resolution of
its dispatch; `inflight` is a ghost counter of events emitted on the socket
and not yet answered by a `final` update; `enqueued`/`dispatched` are ghost
traces of all events ever enqueued resp. popped, in order. -/
structure Sys where
  queue : List Evt
  processing : Bool
  dispatching : Option Evt
  inflight : Nat
  enqueued : List Evt
  dispatched : List Evt
  deriving DecidableEq, Repr

/-- Labels naming the code path a transition models. -/
inductive SLabel where
  | enq (evs : List Evt)
  | deq
  | localDone
  | send
  | inbound (final : Bool) (evs : List Evt)
  deriving DecidableEq, Repr

/-- Labelled transitions of the queue/gate system, one per code path:

* `enq`: `queueEvents` pushes onto the tail of `event_queue` (line 260).
* `deq`: `processEvent` returns unless the queue is non-empty and
  `event_processing` is false, then sets `event_processing = true` and shifts
  the head (lines 275-283).
* `localDone`: the dispatch returned `eventSent = false`, so
  `event_processing` is reset to false (lines 293-294).
* `send`: the dispatch emitted the event on the socket (`applyEvent`
  returned true, lines 220-226); `event_processing` stays true.
* `inbound`: the socket `event` handler (lines 336-346) answers the
  in-flight event: `event_processing = !update.final` and `update.events`
  are queued.  Per the protocol (spec section 2) updates belong to the one
  originating in-flight event, hence the `inflight = 1` guard. -/
inductive Step : SLabel → Sys → Sys → Prop where
  | enq (evs : List Evt) (s : Sys) :
      Step (.enq evs) s
        { s with queue := s.queue ++ evs, enqueued := s.enqueued ++ evs }
  | deq (e : Evt) (q : List Evt) (s : Sys) :
      s.processing = false → s.dispatching = none → s.queue = e :: q →
      Step .deq s
        { s with queue := q, processing := true, dispatching := some e,
                 dispatched := s.dispatched ++ [e] }
  | localDone (e : Evt) (s : Sys) :
      s.dispatching = some e → eventSent e = false →
      Step .localDone s { s with processing := false, dispatching := none }
  | send (e : Evt) (s : Sys) :
      s.dispatching = some e → eventSent e = true →
      Step .send s
        { s with dispatching := none, inflight := s.inflight + 1 }
  | inbound (final : Bool) (evs : List Evt) (s : Sys) :
      s.inflight = 1 →
      Step (.inbound final evs) s
        { s with processing := !final,
                 inflight := if final then 0 else 1,
                 queue := s.queue ++ evs,
                 enqueued := s.enqueued ++ evs }

/-- The initial system state: empty queue, gate idle (state.js lines 36-38). -/
def initSys : Sys :=
  { queue := [], processing := false, dispatching := none, inflight := 0,
    enqueued := [], dispatched := [] }

/-- States reachable from the initial state through the labelled steps. -/
inductive Reachable : Sys → Prop where
  | init : Reachable initSys
  | step {s s' : Sys} {l : SLabel} : Reachable s → Step l s s' → Reachable s'

/-- The inductive invariant of the queue/gate system. -/
def SysInv (s : Sys) : Prop :=
  s.inflight ≤ 1 ∧
  (s.processing = false → s.inflight = 0) ∧
  (∀ e, s.dispatching = some e → s.processing = true ∧ s.inflight = 0) ∧
  s.dispatched ++ s.queue = s.enqueued

theorem sysInv_init : SysInv initSys := by
  refine ⟨by simp [initSys], fun _ => rfl, fun e h => by simp [initSys] at h, rfl⟩

theorem sysInv_step {l : SLabel} {s s' : Sys} (hs : SysInv s)
    (hstep : Step l s s') : SysInv s' := by
  obtain ⟨h1, h2, h3, h4⟩ := hs
  cases hstep with
  | enq evs s =>
      refine ⟨h1, h2, h3, ?_⟩
      simp only []
      rw [← List.append_assoc, h4]
  | deq e q s hp hd hq =>
      refine ⟨h1, fun h => by simp at h, ?_, ?_⟩
      · intro e' he'
        simp only [Option.some.injEq] at he'
        exact ⟨rfl, h2 hp⟩
      · simp only []
        rw [List.append_assoc]
        simpa [hq] using h4
  | localDone e s hd hsent =>
      obtain ⟨hp, hf⟩ := h3 e hd
      exact ⟨h1, fun _ => hf, fun e' he' => by simp at he', h4⟩
  | send e s hd hsent =>
      obtain ⟨hp, hf⟩ := h3 e hd
      refine ⟨by simp [hf], ?_, ?_, h4⟩
      · intro h
        simp only [] at h
        simp [hp] at h
      · intro e' he'
        simp at he'
  | inbound final evs s hf =>
      refine ⟨?_, ?_, ?_, ?_⟩
      · cases final <;> simp
      · intro h
        cases final with
        | false => simp at h
        | true => simp
      · intro e' he'
        simp only [] at he'
        obtain ⟨_, hzero⟩ := h3 e' he'
        rw [hzero] at hf
        cases hf
      · simp only []
        rw [← List.append_assoc, h4]

theorem reachable_inv {s : Sys} (h : Reachable s) : SysInv s := by
  induction h with
  | init => exact sysInv_init
  | step _ hstep ih => exact sysInv_step ih hstep

/-- C1. Single-flight gate: in every reachable state of the queue/gate
system at most one network-bound event is awaiting a reply; the only step
that shrinks the queue (the dequeue in `processEvent`) requires the
`Processing` flag to be false; the step that pops an event into dispatch
position sets the flag true before the dispatch outcome; and the flag goes
from true back to false only through a local/declined dispatch or an
inbound update with `final = true`. -/
theorem single_flight_gate :
    (∀ s : Sys, Reachable s → s.inflight ≤ 1) ∧
    (∀ (l : SLabel) (s s' : Sys), Step l s s' →
      s'.queue.length < s.queue.length → s.processing = false) ∧
    (∀ (l : SLabel) (s s' : Sys) (e : Evt), Step l s s' →
      s.dispatching = none → s'.dispatching = some e →
      s'.processing = true) ∧
    (∀ (l : SLabel) (s s' : Sys), Step l s s' →
      s.processing = true → s'.processing = false →
      l = SLabel.localDone ∨ ∃ evs, l = SLabel.inbound true evs) := by
  refine ⟨?_, ?_, ?_, ?_⟩
  · intro s hs
    exact (reachable_inv hs).1
  · intro l s s' hstep hlt
    cases hstep with
    | enq evs s => simp at hlt
    | deq e q s hp hd hq => exact hp
    | localDone e s hd hsent => simp at hlt
    | send e s hd hsent => simp at hlt
    | inbound final evs s hf => simp at hlt
  · intro l s s' e hstep hnone hsome
    cases hstep with
    | enq evs s => simp only [] at hsome; rw [hnone] at hsome; cases hsome
    | deq e' q s hp hd hq => rfl
    | localDone e' s hd hsent => simp at hsome
    | send e' s hd hsent => simp at hsome
    | inbound final evs s hf =>
        simp only [] at hsome; rw [hnone] at hsome; cases hsome
  · intro l s s' hstep hpre hpost
    cases hstep with
    | enq evs s => simp only [] at hpost; rw [hpre] at hpost; cases hpost
    | deq e q s hp hd hq => simp at hpost
    | localDone e s hd hsent => exact Or.inl rfl
    | send e s hd hsent => simp only [] at hpost; rw [hpre] at hpost; cases hpost
    | inbound final evs s hf =>
        cases final with
        | false => simp at hpost
        | true => exact Or.inr ⟨evs, rfl⟩

/-- A concrete non-special event used to exercise the transition system. -/
def evDemoA : Evt :=
  { name := "increment", payload := [], handler := none, token := none,
    router_data := none }

/-- A second concrete event for the FIFO demonstration. -/
def evDemoB : Evt :=
  { name := "decrement", payload := [], handler := none, token := none,
    router_data := none }

/-- The state after enqueueing `[evDemoA, evDemoB]` from the initial state. -/
def sysDemo1 : Sys :=
  { queue := [evDemoA, evDemoB], processing := false, dispatching := none,
    inflight := 0, enqueued := [evDemoA, evDemoB], dispatched := [] }

/-- The state after additionally dequeuing `evDemoA` for dispatch. -/
def sysDemo2 : Sys :=
  { queue := [evDemoB], processing := true, dispatching := some evDemoA,
    inflight := 0, enqueued := [evDemoA, evDemoB], dispatched := [evDemoA] }

theorem sysDemo1_reachable : Reachable sysDemo1 :=
  Reachable.step Reachable.init (Step.enq [evDemoA, evDemoB] initSys)

theorem sysDemo2_reachable : Reachable sysDemo2 :=
  Reachable.step sysDemo1_reachable (Step.deq evDemoA [evDemoB] sysDemo1 rfl rfl rfl)

/-- A concrete special (client-only) event. -/
def evDemoC : Evt :=
  { name := "_console", payload := [("message", JVal.str "hi")],
    handler := none, token := none, router_data := none }

/-- A state in the middle of dispatching the special event `evDemoC`. -/
def sysDemo3 : Sys :=
  { queue := [], processing := true, dispatching := some evDemoC,
    inflight := 0, enqueued := [evDemoC], dispatched := [evDemoC] }

theorem single_flight_gate_witness :
    sysDemo2.inflight ≤ 1 ∧
    sysDemo1.processing = false ∧
    sysDemo2.processing = true ∧
    (SLabel.localDone = SLabel.localDone ∨
      ∃ evs, SLabel.localDone = SLabel.inbound true evs) :=
  ⟨single_flight_gate.1 sysDemo2 sysDemo2_reachable,
   single_flight_gate.2.1 SLabel.deq sysDemo1 sysDemo2
     (Step.deq evDemoA [evDemoB] sysDemo1 rfl rfl rfl) (by decide),
   single_flight_gate.2.2.1 SLabel.deq sysDemo1 sysDemo2 evDemoA
     (Step.deq evDemoA [evDemoB] sysDemo1 rfl rfl rfl) rfl rfl,
   single_flight_gate.2.2.2 SLabel.localDone sysDemo3
     { sysDemo3 with processing := false, dispatching := none }
     (Step.localDone evDemoC sysDemo3 rfl (by decide)) rfl rfl⟩

/-- C2. FIFO order: in every reachable state the ghost trace of dequeued
events followed by the still-queued events is exactly the ghost trace of
enqueued events in enqueue order — so events are popped by `processEvent`
in exactly the order `queueEvents` (and the inbound handler) appended them. -/
theorem fifo_order (s : Sys) (h : Reachable s) :
    s.dispatched ++ s.queue = s.enqueued :=
  (reachable_inv h).2.2.2

theorem fifo_order_witness :
    sysDemo2.dispatched ++ sysDemo2.queue = sysDemo2.enqueued :=
  fifo_order sysDemo2 sysDemo2_reachable

/-- Modelled from the spec: the per-substate reducers that the inbound
handler dispatches into (state.js lines 338-340 iterate `update.delta` and
call `dispatch[substate](update.delta[substate])`) are created in
`utils/context.js`, which is not under src/; per spec section 4.3 each
reducer shallow-merges the delta's fields into that substate's current
snapshot, tolerating substates not previously known (modelled by the
`.getD []` default). -/
def dispatchDelta (state delta : Obj (Obj JVal)) : Obj (Obj JVal) :=
  delta.foldl
    (fun st p => jset st p.1 (applyDelta ((jget st p.1).getD []) p.2)) state

/-- Field lookup through a substate: `state[sub][k]`. -/
def lookup2 (st : Obj (Obj JVal)) (sub k : String) : Option JVal :=
  (jget st sub).bind (fun m => jget m k)

/-- C3. Delta application is a shallow per-substate merge: `applyDelta`
maps every key of the delta to the delta's value and every key of the state
not in the delta to its old value (no field dropped unless overwritten);
and through the per-substate dispatch, applying `{a:{x:1}}` then
`{a:{y:2}}` yields `{a:{x:1,y:2}}`, and re-applying `{a:{x:1}}` leaves `y`
at 2. -/
theorem applyDelta_shallow_merge :
    (∀ (s d : Obj JVal) (k : String) (v : JVal),
      jget d k = some v → jget (applyDelta s d) k = some v) ∧
    (∀ (s d : Obj JVal) (k : String),
      jget d k = none → jget (applyDelta s d) k = jget s k) ∧
    (let s1 := dispatchDelta [] [("a", [("x", JVal.num 1)])]
     let s2 := dispatchDelta s1 [("a", [("y", JVal.num 2)])]
     let s3 := dispatchDelta s2 [("a", [("x", JVal.num 1)])]
     lookup2 s2 "a" "x" = some (JVal.num 1) ∧
     lookup2 s2 "a" "y" = some (JVal.num 2) ∧
     lookup2 s3 "a" "x" = some (JVal.num 1) ∧
     lookup2 s3 "a" "y" = some (JVal.num 2)) := by
  refine ⟨?_, ?_, ?_⟩
  · intro s d k v h
    rw [jget_applyDelta, h]
  · intro s d k h
    rw [jget_applyDelta, h]
  · exact ⟨by decide, by decide, by decide, by decide⟩

theorem applyDelta_shallow_merge_witness :
    jget (applyDelta [("x", JVal.num 0), ("y", JVal.num 2)]
        [("x", JVal.num 1)]) "x" = some (JVal.num 1) ∧
    jget (applyDelta [("x", JVal.num 0), ("y", JVal.num 2)]
        [("x", JVal.num 1)]) "y" = some (JVal.num 2) :=
  ⟨applyDelta_shallow_merge.1 [("x", JVal.num 0), ("y", JVal.num 2)]
      [("x", JVal.num 1)] "x" (JVal.num 1) (by decide),
   (applyDelta_shallow_merge.2.1 [("x", JVal.num 0), ("y", JVal.num 2)]
      [("x", JVal.num 1)] "y" (by decide)).trans (by decide)⟩

/-- C7 counterexample: an event enqueued with a token already present does
not keep it — `applyEvent` executes `event.token = getToken()`
unconditionally (state.js line 207), overwriting the existing token. -/
theorem token_overwritten_counterexample :
    ((applyEventPure (some "session-token") [("pathname", JVal.str "/")] true
        { name := "increment", payload := [], handler := none,
          token := some "stale-token",
          router_data := some [("pathname", JVal.str "/x")] }).2).token
      = some "session-token" ∧
    some "session-token" ≠ (some "stale-token" : Option String) :=
  ⟨rfl, by decide⟩

/-- C7 (amended). Enrichment frame property: for every network-bound
(non-special, handler-absent) event, `applyEvent` always assigns the session
token (overwriting any token already present — it is populated
unconditionally, not only when absent), populates the router descriptor
only when it is absent or empty, leaves already-present non-empty router
data unchanged, and modifies no other field of the event (name, payload and
handler stay as enqueued). -/
theorem enrichment_frame (tok : Option String) (routerObj : Obj JVal)
    (e : Evt) (hspec : isSpecial e.name = false) (hh : e.handler = none) :
    ((applyEventPure tok routerObj true e).1 = true) ∧
    ((applyEventPure tok routerObj true e).2.token = tok) ∧
    (e.router_data = none →
      (applyEventPure tok routerObj true e).2.router_data = some routerObj) ∧
    (∀ rd, e.router_data = some rd → rd.isEmpty = true →
      (applyEventPure tok routerObj true e).2.router_data = some routerObj) ∧
    (∀ rd, e.router_data = some rd → rd.isEmpty = false →
      (applyEventPure tok routerObj true e).2.router_data = some rd) ∧
    ((applyEventPure tok routerObj true e).2.name = e.name) ∧
    ((applyEventPure tok routerObj true e).2.payload = e.payload) ∧
    ((applyEventPure tok routerObj true e).2.handler = none) := by
  refine ⟨?_, ?_, ?_, ?_, ?_, ?_, ?_, ?_⟩
  · simp [applyEventPure, hspec]
  · simp [applyEventPure, hspec, enrichEvent]
  · intro h
    simp [applyEventPure, hspec, enrichEvent, h]
  · intro rd hrd hempty
    simp [applyEventPure, hspec, enrichEvent, hrd, hempty]
  · intro rd hrd hempty
    simp [applyEventPure, hspec, enrichEvent, hrd, hempty]
  · simp [applyEventPure, hspec, enrichEvent]
  · simp [applyEventPure, hspec, enrichEvent]
  · simp [applyEventPure, hspec, enrichEvent, hh]

theorem enrichment_frame_witness :
    ((applyEventPure (some "tok") [("pathname", JVal.str "/")] true evDemoA).1
      = true) ∧
    ((applyEventPure (some "tok") [("pathname", JVal.str "/")] true
        evDemoA).2.token = some "tok") ∧
    ((applyEventPure (some "tok") [("pathname", JVal.str "/")] true
        evDemoA).2.router_data = some [("pathname", JVal.str "/")]) ∧
    ((applyEventPure (some "tok") [("pathname", JVal.str "/")] true
        evDemoA).2.payload = evDemoA.payload) :=
  let h := enrichment_frame (some "tok") [("pathname", JVal.str "/")] evDemoA
    (by decide) rfl
  ⟨h.1, h.2.1, h.2.2.1 rfl, h.2.2.2.2.2.2.1⟩

/-- Character-separated split, the JS `str.split(sep)` for a one-character
separator (used by the source as `key.split(".")` on state keys, line 495,
and `responseText.split("\n")` on upload chunks, line 380): splitting the
empty text yields one empty piece, as in JS. -/
def splitOnChar (sep : Char) : List Char → List (List Char)
  | [] => [[]]
  | c :: rest =>
    let r := splitOnChar sep rest
    if c = sep then [] :: r
    else
      match r with
      | [] => [[c]]
      | h :: t => (c :: h) :: t

/-- Cookie configuration entry: the optional external `name` plus the
remaining cookie options (the source deletes `name` from the options before
writing, state.js line 512). -/
structure CookieCfg where
  name : Option String
  opts : Obj JVal
  deriving DecidableEq, Repr

/-- Local-storage configuration entry: optional external `name` and the
`sync` option (used only by the storage-event listener in `useEventLoop`). -/
structure LSCfg where
  name : Option String
  sync : Bool
  deriving DecidableEq, Repr

/-- The `client_storage` object from context.js: which state keys are
cookie-backed and which are local-storage-backed. `none` models the section
being absent (JS falsy check `client_storage.cookies`). -/
structure ClientStorage where
  cookies : Option (Obj CookieCfg)
  local_storage : Option (Obj LSCfg)
  deriving DecidableEq, Repr

/-- The JS fallback `options.name || state_key`: an absent or empty
configured name falls back to the state key. -/
def cfgName (n : Option String) (state_key : String) : String :=
  match n with
  | some s => if s = "" then state_key else s
  | none => state_key

/-- One durable-storage write performed by `applyClientStorageDelta`. -/
inductive StorageWrite where
  | cookie (name : String) (value : JVal) (opts : Obj JVal)
  | localStorage (name : String) (value : JVal)
  deriving DecidableEq, Repr

/-- The unqualified (dot-free) substate keys of a delta (state.js lines
494-496: `Object.keys(delta).filter((key) => key.split(".").length === 1)`). -/
def unqualifiedKeys (delta : Obj (Obj JVal)) : List String :=
  (delta.map Prod.fst).filter
    (fun key => (splitOnChar '.' key.data).length == 1)

/-- The skip condition of `applyClientStorageDelta` (state.js lines
497-504): exactly one unqualified substate key, whose value carries an
`is_hydrated` property that is defined and falsy (`!== undefined &&
!main_state.is_hydrated`). -/
def hydrateGate (delta : Obj (Obj JVal)) : Bool :=
  match unqualifiedKeys delta with
  | [k] =>
    match jget delta k with
    | some main =>
      match jget main "is_hydrated" with
      | some v => !truthy v
      | none => false
    | none => false
  | _ => false

/-- The write (if any) performed for one `(substate, field)` pair of the
delta (state.js lines 506-523): the cookie branch fires when the cookie
section exists and has the state key; otherwise the local-storage branch
fires when that section exists, has the state key, and a window is present;
a pair matching neither is ignored. -/
def writeFor (hasWindow : Bool) (cs : ClientStorage) (state_key : String)
    (v : JVal) : List StorageWrite :=
  match cs.cookies.bind (fun ck => jget ck state_key) with
  | some cfg => [.cookie (cfgName cfg.name state_key) v cfg.opts]
  | none =>
    match cs.local_storage.bind (fun ls => jget ls state_key) with
    | some cfg =>
        if hasWindow then [.localStorage (cfgName cfg.name state_key) v]
        else []
    | none => []

/-- `applyClientStorageDelta` (state.js lines 492-524), returning the list
of storage writes it performs, in iteration order. -/
def applyClientStorageDelta (hasWindow : Bool) (cs : ClientStorage)
    (delta : Obj (Obj JVal)) : List StorageWrite :=
  if hydrateGate delta then []
  else
    delta.flatMap (fun p =>
      p.2.flatMap (fun q => writeFor hasWindow cs (p.1 ++ "." ++ q.1) q.2))

/-- C4 counterexample: the skip condition is JS falsiness, not equality
with the boolean `false`.  A delta whose sole unqualified substate carries
`is_hydrated: 0` — which is not the explicit boolean `false` — still
suppresses every write, although `a.k` matches a cookie config entry. -/
theorem storage_gate_counterexample :
    ((jget ([("a", [("is_hydrated", JVal.num 0), ("k", JVal.str "v")])] :
        Obj (Obj JVal)) "a").bind (fun m => jget m "is_hydrated")
      = some (JVal.num 0)) ∧
    JVal.num 0 ≠ JVal.bool false ∧
    applyClientStorageDelta true
      { cookies := some [("a.k", { name := none, opts := [] })],
        local_storage := none }
      [("a", [("is_hydrated", JVal.num 0), ("k", JVal.str "v")])] = [] ∧
    StorageWrite.cookie "a.k" (JVal.str "v") [] ∉
      applyClientStorageDelta true
        { cookies := some [("a.k", { name := none, opts := [] })],
          local_storage := none }
        [("a", [("is_hydrated", JVal.num 0), ("k", JVal.str "v")])] :=
  ⟨by decide, by decide, by decide, by decide⟩

/-- C4 (amended). Storage gating: `applyClientStorageDelta` performs zero
writes when the delta contains exactly one unqualified (non-dot) substate
key whose value carries `is_hydrated` present with a *falsy* value (the
boolean `false`, but also `0`, `""` or `null`); otherwise, in a browser
context, every `(substate, field)` pair whose dotted state key matches a
cookie config entry produces a cookie write under the configured name
(falling back to the state key), every pair matching a local-storage entry
instead produces a local-storage write, and pairs matching neither produce
no write and no error. -/
theorem storage_gating (cs : ClientStorage) (delta : Obj (Obj JVal)) :
    (hydrateGate delta = true → applyClientStorageDelta true cs delta = []) ∧
    (hydrateGate delta = false →
      (∀ sub fields k v ck cfg, (sub, fields) ∈ delta → (k, v) ∈ fields →
        cs.cookies = some ck → jget ck (sub ++ "." ++ k) = some cfg →
        StorageWrite.cookie (cfgName cfg.name (sub ++ "." ++ k)) v cfg.opts ∈
          applyClientStorageDelta true cs delta) ∧
      (∀ sub fields k v ls cfg, (sub, fields) ∈ delta → (k, v) ∈ fields →
        cs.cookies.bind (fun ck => jget ck (sub ++ "." ++ k)) = none →
        cs.local_storage = some ls → jget ls (sub ++ "." ++ k) = some cfg →
        StorageWrite.localStorage (cfgName cfg.name (sub ++ "." ++ k)) v ∈
          applyClientStorageDelta true cs delta) ∧
      (∀ w, w ∈ applyClientStorageDelta true cs delta →
        ∃ sub fields k v, (sub, fields) ∈ delta ∧ (k, v) ∈ fields ∧
          w ∈ writeFor true cs (sub ++ "." ++ k) v)) ∧
    (∀ state_key v,
      cs.cookies.bind (fun ck => jget ck state_key) = none →
      cs.local_storage.bind (fun ls => jget ls state_key) = none →
      writeFor true cs state_key v = []) := by
  refine ⟨?_, ?_, ?_⟩
  · intro h
    simp [applyClientStorageDelta, h]
  · intro h
    refine ⟨?_, ?_, ?_⟩
    · intro sub fields k v ck cfg hmem hkv hck hcfg
      simp only [applyClientStorageDelta, h, Bool.false_eq_true, if_neg,
        not_false_iff]
      rw [List.mem_flatMap]
      refine ⟨(sub, fields), hmem, ?_⟩
      rw [List.mem_flatMap]
      refine ⟨(k, v), hkv, ?_⟩
      simp [writeFor, hck, hcfg]
    · intro sub fields k v ls cfg hmem hkv hnone hls hcfg
      simp only [applyClientStorageDelta, h, Bool.false_eq_true, if_neg,
        not_false_iff]
      rw [List.mem_flatMap]
      refine ⟨(sub, fields), hmem, ?_⟩
      rw [List.mem_flatMap]
      refine ⟨(k, v), hkv, ?_⟩
      simp [writeFor, hnone, hls, hcfg]
    · intro w hw
      simp only [applyClientStorageDelta, h, Bool.false_eq_true, if_neg,
        not_false_iff] at hw
      rw [List.mem_flatMap] at hw
      obtain ⟨p, hp, hw⟩ := hw
      rw [List.mem_flatMap] at hw
      obtain ⟨q, hq, hw⟩ := hw
      exact ⟨p.1, p.2, q.1, q.2, hp, hq, hw⟩
  · intro state_key v h1 h2
    simp [writeFor, h1, h2]

theorem storage_gating_witness :
    StorageWrite.cookie "cx" (JVal.num 1) [] ∈
      applyClientStorageDelta true
        { cookies := some [("a.x", { name := some "cx", opts := [] })],
          local_storage := some [("a.y", { name := none, sync := false })] }
        [("a", [("x", JVal.num 1), ("y", JVal.num 2), ("z", JVal.num 3)])] ∧
    StorageWrite.localStorage "a.y" (JVal.num 2) ∈
      applyClientStorageDelta true
        { cookies := some [("a.x", { name := some "cx", opts := [] })],
          local_storage := some [("a.y", { name := none, sync := false })] }
        [("a", [("x", JVal.num 1), ("y", JVal.num 2), ("z", JVal.num 3)])] ∧
    writeFor true
      { cookies := some [("a.x", { name := some "cx", opts := [] })],
        local_storage := some [("a.y", { name := none, sync := false })] }
      "a.z" (JVal.num 3) = [] :=
  ⟨by
    exact ((storage_gating
      { cookies := some [("a.x", { name := some "cx", opts := [] })],
        local_storage := some [("a.y", { name := none, sync := false })] }
      [("a", [("x", JVal.num 1), ("y", JVal.num 2), ("z", JVal.num 3)])]).2.1
      (by decide)).1 "a"
      [("x", JVal.num 1), ("y", JVal.num 2), ("z", JVal.num 3)] "x"
      (JVal.num 1) [("a.x", { name := some "cx", opts := [] })]
      { name := some "cx", opts := [] }
      (by decide) (by decide) rfl (by decide),
   by
    exact ((storage_gating
      { cookies := some [("a.x", { name := some "cx", opts := [] })],
        local_storage := some [("a.y", { name := none, sync := false })] }
      [("a", [("x", JVal.num 1), ("y", JVal.num 2), ("z", JVal.num 3)])]).2.1
      (by decide)).2.1 "a"
      [("x", JVal.num 1), ("y", JVal.num 2), ("z", JVal.num 3)] "y"
      (JVal.num 2) [("a.y", { name := none, sync := false })]
      { name := none, sync := false }
      (by decide) (by decide) (by decide) rfl (by decide),
   (storage_gating
      { cookies := some [("a.x", { name := some "cx", opts := [] })],
        local_storage := some [("a.y", { name := none, sync := false })] }
      [("a", [("x", JVal.num 1), ("y", JVal.num 2), ("z", JVal.num 3)])]).2.2
      "a.z" (JVal.num 3) (by decide) (by decide)⟩

/-- One step of the local-storage loop of `hydrateClientStorage`
(state.js lines 471-479): read `localStorage.getItem(options.name ||
state_key)` and record it under the state key when non-null. -/
def lsHydrateStep (localStore : String → Option String) (acc : Obj JVal)
    (p : String × LSCfg) : Obj JVal :=
  match localStore (cfgName p.2.name p.1) with
  | some v => jset acc p.1 (JVal.str v)
  | none => acc

/-- One step of the cookie loop of `hydrateClientStorage` (state.js lines
461-468): read `cookies.get(cookie_options.name || state_key)` and record
it under the state key when defined. -/
def cookieHydrateStep (cookieStore : String → Option JVal) (acc : Obj JVal)
    (p : String × CookieCfg) : Obj JVal :=
  match cookieStore (cfgName p.2.name p.1) with
  | some v => jset acc p.1 v
  | none => acc

/-- `hydrateClientStorage` (state.js lines 458-485): the cookie loop runs
first, then the local-storage loop (guarded by the window check); the final
`if (cookies || local_storage) ... return {}` returns the same empty object
the loops would have produced, so it is not modelled separately. -/
def hydrateClientStorage (hasWindow : Bool)
    (cookieStore : String → Option JVal)
    (localStore : String → Option String) (cs : ClientStorage) : Obj JVal :=
  let afterCookies :=
    match cs.cookies with
    | some ck => ck.foldl (cookieHydrateStep cookieStore) []
    | none => []
  match cs.local_storage with
  | some ls =>
      if hasWindow then ls.foldl (lsHydrateStep localStore) afterCookies
      else afterCookies
  | none => afterCookies

/-- Forgetting every `sync` flag of a client-storage configuration. -/
def eraseSync (cs : ClientStorage) : ClientStorage :=
  { cs with
    local_storage := cs.local_storage.map
      (fun ls => ls.map (fun p => (p.1, { p.2 with sync := false }))) }

theorem foldl_lsHydrateStep_notin (localStore : String → Option String)
    (sk : String) :
    ∀ (rest : Obj LSCfg) (acc : Obj JVal), sk ∉ rest.map Prod.fst →
      jget (rest.foldl (lsHydrateStep localStore) acc) sk = jget acc sk := by
  intro rest
  induction rest with
  | nil => intro acc _; rfl
  | cons p tail ih =>
      intro acc hnot
      simp only [List.map_cons, List.mem_cons, not_or] at hnot
      obtain ⟨hne, hrest⟩ := hnot
      rw [List.foldl_cons, ih _ hrest]
      unfold lsHydrateStep
      cases localStore (cfgName p.2.name p.1) with
      | some v => exact jget_jset_other acc sk p.1 (JVal.str v) (fun h => hne h.symm)
      | none => rfl

theorem foldl_lsHydrateStep_found (localStore : String → Option String)
    (sk : String) (cfg : LSCfg) (v : String)
    (hv : localStore (cfgName cfg.name sk) = some v) :
    ∀ (ls : Obj LSCfg) (acc : Obj JVal), (ls.map Prod.fst).Nodup →
      jget ls sk = some cfg →
      jget (ls.foldl (lsHydrateStep localStore) acc) sk
        = some (JVal.str v) := by
  intro ls
  induction ls with
  | nil => intro acc _ hcfg; cases hcfg
  | cons p tail ih =>
      intro acc hnodup hcfg
      simp only [List.map_cons, List.nodup_cons] at hnodup
      obtain ⟨hhead, htail⟩ := hnodup
      rw [jget_cons] at hcfg
      by_cases hp : p.1 == sk
      · have hk : p.1 = sk := eq_of_beq hp
        rw [if_pos hp] at hcfg
        obtain rfl : p.2 = cfg := by injection hcfg
        rw [List.foldl_cons,
          foldl_lsHydrateStep_notin localStore sk tail _ (by rw [← hk]; exact hhead)]
        unfold lsHydrateStep
        rw [hk, hv]
        exact jget_jset_same acc sk (JVal.str v)
      · rw [if_neg (by simpa using hp)] at hcfg
        rw [List.foldl_cons]
        exact ih _ htail hcfg

/-- C9. The hydration payload ignores the `sync` option: every configured
local-storage-backed key whose stored value is non-null appears in the
payload whatever its `sync` flag is, and erasing all `sync` flags leaves
the payload unchanged (the flag is read only by the storage-event listener
in `useEventLoop`, state.js lines 606-614, never by `hydrateClientStorage`). -/
theorem hydrate_ignores_sync (cookieStore : String → Option JVal)
    (localStore : String → Option String) (cs : ClientStorage)
    (ls : Obj LSCfg) (hls : cs.local_storage = some ls)
    (hnodup : (ls.map Prod.fst).Nodup) (sk : String) (cfg : LSCfg)
    (hcfg : jget ls sk = some cfg) (v : String)
    (hv : localStore (cfgName cfg.name sk) = some v) :
    jget (hydrateClientStorage true cookieStore localStore cs) sk
      = some (JVal.str v) ∧
    (∀ hw : Bool,
      hydrateClientStorage hw cookieStore localStore (eraseSync cs)
        = hydrateClientStorage hw cookieStore localStore cs) := by
  constructor
  · unfold hydrateClientStorage
    rw [hls]
    simp only [if_pos]
    exact foldl_lsHydrateStep_found localStore sk cfg v hv ls _ hnodup hcfg
  · intro hw
    have key : ∀ (init : Obj JVal),
        List.foldl (lsHydrateStep localStore) init
          (ls.map (fun p => (p.1, { p.2 with sync := false })))
          = List.foldl (lsHydrateStep localStore) init ls := by
      intro init
      rw [List.foldl_map]
      congr 1
    unfold hydrateClientStorage eraseSync
    rw [hls]
    cases hw with
    | false => rfl
    | true => exact key _

/-- A demonstration client-storage configuration with both sync settings. -/
def csDemo : ClientStorage :=
  { cookies := none,
    local_storage := some [("a.u", { name := none, sync := true }),
      ("a.w", { name := some "wkey", sync := false })] }

/-- A demonstration local-storage backend. -/
def lsStoreDemo (k : String) : Option String :=
  if k = "a.u" then some "41" else if k = "wkey" then some "42" else none

theorem hydrate_ignores_sync_witness :
    jget (hydrateClientStorage true (fun _ => none) lsStoreDemo csDemo) "a.u"
      = some (JVal.str "41") ∧
    hydrateClientStorage true (fun _ => none) lsStoreDemo (eraseSync csDemo)
      = hydrateClientStorage true (fun _ => none) lsStoreDemo csDemo :=
  let h := hydrate_ignores_sync (fun _ => none) lsStoreDemo csDemo
    [("a.u", { name := none, sync := true }),
      ("a.w", { name := some "wkey", sync := false })] rfl (by decide)
    "a.u" { name := none, sync := true } (by decide) "41" (by decide)
  ⟨h.1, h.2 true⟩

/-- How the single awaited `axios.post` of `uploadFiles` resolves. -/
inductive UploadOutcome where
  | success (resp : Nat)
  | errorResponse (data : String)
  | errorRequest (req : String)
  | errorSetup (msg : String)
  deriving DecidableEq, Repr

/-- What `uploadFiles` returns to its caller: `false`, or the axios
response object on success (never a thrown exception — the catch at
state.js lines 421-435 is exhaustive). -/
inductive UploadReturn where
  | falseVal
  | response (resp : Nat)
  deriving DecidableEq, Repr

/-- Outcome of the synchronous part of `uploadFiles`. -/
inductive StartOutcome where
  | noFiles
  | inProgress
  | started
  deriving DecidableEq, Repr

/-- The synchronous part of `uploadFiles` (state.js lines 360-420), up to
the suspension at `await axios.post`: return `false` when `files` is
undefined or empty (lines 368-370, modelled as `noFiles`); return `false`
when `upload_controllers[upload_id]` exists (lines 372-375, `inProgress`,
logged not thrown); otherwise register the controller under the id
(line 417) and issue the request (`started`).  The session table is the
list of registered upload ids. -/
def uploadStart (controllers : List String) (files : Option (List String))
    (upload_id : String) : StartOutcome × List String :=
  match files with
  | none => (.noFiles, controllers)
  | some fs =>
    if fs.length == 0 then (.noFiles, controllers)
    else if upload_id ∈ controllers then (.inProgress, controllers)
    else (.started, controllers ++ [upload_id])

/-- The resumption of `uploadFiles` after `await axios.post` resolves
(state.js lines 419-438): a success returns the response, each of the
three categorized failures (`error.response` / `error.request` / setup
error) is logged and returns `false`, and the `finally` block deletes the
session entry for the id on every path. -/
def uploadFinish (controllers : List String) (upload_id : String)
    (outcome : UploadOutcome) : UploadReturn × List String :=
  (match outcome with
   | .success r => .response r
   | .errorResponse _ => .falseVal
   | .errorRequest _ => .falseVal
   | .errorSetup _ => .falseVal,
   controllers.filter (fun c => c != upload_id))

/-- C5. Upload session exclusivity and cleanup: `uploadFiles` declines
immediately — creating no session and leaving the session table untouched —
when `files` is absent or empty or a session already exists for the id;
when it does start it registers exactly the new id; and the resumed
continuation removes the id from the session table on every exit path
(success and all three categorized failures), returning a value rather
than throwing, and leaving every other id's session in place. -/
theorem upload_session_exclusive_cleanup :
    (∀ (c : List String) (id : String), uploadStart c none id = (.noFiles, c)) ∧
    (∀ (c : List String) (id : String),
      uploadStart c (some []) id = (.noFiles, c)) ∧
    (∀ (c : List String) (fs : List String) (id : String), fs ≠ [] →
      id ∈ c → uploadStart c (some fs) id = (.inProgress, c)) ∧
    (∀ (c : List String) (fs : List String) (id : String), fs ≠ [] →
      id ∉ c → uploadStart c (some fs) id = (.started, c ++ [id])) ∧
    (∀ (c : List String) (id : String) (outcome : UploadOutcome),
      id ∉ (uploadFinish c id outcome).2) ∧
    (∀ (c : List String) (id : String) (outcome : UploadOutcome)
      (j : String), j ≠ id → (j ∈ (uploadFinish c id outcome).2 ↔ j ∈ c)) ∧
    (∀ (c : List String) (id : String) (r : Nat),
      (uploadFinish c id (.success r)).1 = .response r) ∧
    (∀ (c : List String) (id : String) (d : String),
      (uploadFinish c id (.errorResponse d)).1 = .falseVal ∧
      (uploadFinish c id (.errorRequest d)).1 = .falseVal ∧
      (uploadFinish c id (.errorSetup d)).1 = .falseVal) := by
  refine ⟨fun c id => rfl, fun c id => rfl, ?_, ?_, ?_, ?_,
    fun c id r => rfl, fun c id d => ⟨rfl, rfl, rfl⟩⟩
  · intro c fs id hne hmem
    cases fs with
    | nil => exact absurd rfl hne
    | cons a l => simp [uploadStart, hmem]
  · intro c fs id hne hmem
    cases fs with
    | nil => exact absurd rfl hne
    | cons a l => simp [uploadStart, hmem]
  · intro c id outcome
    simp [uploadFinish, List.mem_filter]
  · intro c id outcome j hj
    simp [uploadFinish, List.mem_filter, hj]

theorem upload_session_exclusive_cleanup_witness :
    uploadStart ["u1"] (some ["f.txt"]) "u1" = (.inProgress, ["u1"]) ∧
    uploadStart ["u1"] (some ["f.txt"]) "u2"
      = (.started, ["u1", "u2"]) ∧
    "u2" ∉ (uploadFinish ["u1", "u2"] "u2" (.errorRequest "timeout")).2 ∧
    ("u1" ∈ (uploadFinish ["u1", "u2"] "u2" (.errorRequest "timeout")).2 ↔
      "u1" ∈ ["u1", "u2"]) :=
  ⟨upload_session_exclusive_cleanup.2.2.1 ["u1"] ["f.txt"] "u1"
      (by decide) (by decide),
   upload_session_exclusive_cleanup.2.2.2.1 ["u1"] ["f.txt"] "u2"
      (by decide) (by decide),
   upload_session_exclusive_cleanup.2.2.2.2.1 ["u1", "u2"] "u2"
      (.errorRequest "timeout"),
   upload_session_exclusive_cleanup.2.2.2.2.2.1 ["u1", "u2"] "u2"
      (.errorRequest "timeout") "u1" (by decide)⟩

/-- A connection-lifecycle callback firing: a successful (re)connect or a
connect error carrying an error value (identified here by a number). -/
inductive ConnEvent where
  | connected
  | connectError (err : Nat)
  deriving DecidableEq, Repr

/-- The two lifecycle handlers installed by `connect` (state.js lines
328-334), acting on the reactive error-list state.  `captured` is the value
of the `connectErrors` parameter closed over when `connect` ran: the
`connect_error` handler executes `setConnectErrors([...connectErrors,
error])`, spreading that captured list — not the current list — and the
`connect` handler executes `setConnectErrors([])`. -/
def connectErrorStep (captured : List Nat) (_current : List Nat)
    (ev : ConnEvent) : List Nat :=
  match ev with
  | .connected => []
  | .connectError e => captured ++ [e]

/-- A run of connection-lifecycle callbacks against the handlers installed
by one `connect` call (which `useEventLoop` performs exactly once, when
`socket.current` is unset, with the then-current — initial, empty — error
list, state.js lines 583-591). -/
def runConnEvents (captured : List Nat) (current : List Nat)
    (evs : List ConnEvent) : List Nat :=
  evs.foldl (connectErrorStep captured) current

/-- C8. The connection-error list does not accumulate: because the
`connect_error` handler spreads the `connectErrors` value captured when
`connect` ran (the initial empty list) instead of the current list, two
errors with no intervening successful connect leave the list holding only
the second error, not both in arrival order.  A successful connect does
reset the list to empty.  This contradicts the documented append-only
accumulation and is the well-known stale-closure slip. -/
theorem connect_errors_stale_closure :
    runConnEvents [] [] [.connectError 1, .connectError 2] = [2] ∧
    runConnEvents [] [] [.connectError 1, .connectError 2] ≠ [1, 2] ∧
    runConnEvents [] [5] [.connected] = [] :=
  ⟨rfl, by decide, rfl⟩

/-- The module-level token cache and the browser session storage seen by
`getToken` (state.js lines 24, 68-79). -/
structure TokenState where
  cached : Option String
  sessionStore : Option String
  deriving DecidableEq, Repr

/-- `getToken` (state.js lines 68-79): return the cached token when set
(tokens are freshly generated UUIDs, hence non-empty, so the JS truthiness
test coincides with presence); otherwise, only when a `window` exists,
ensure the session-storage slot is populated (with `generateUUID()` when
empty), cache it, and return it; in a non-browser context fall through and
return the still-undefined module variable. -/
def getToken (hasWindow : Bool) (freshUUID : String) (st : TokenState) :
    Option String × TokenState :=
  match st.cached with
  | some t => (some t, st)
  | none =>
    if hasWindow then
      let store :=
        match st.sessionStore with
        | none => some freshUUID
        | some s => some s
      (store, { cached := store, sessionStore := store })
    else (none, st)

/-- C10. In a non-browser context with no cached token, `getToken` returns
the absent value and neither generates nor persists anything (the state is
untouched); in a browser context it creates (or reads) the identifier and
caches it in both the module variable and session storage. -/
theorem getToken_non_browser (st : TokenState) (fresh : String)
    (hc : st.cached = none) :
    getToken false fresh st = (none, st) ∧
    ((getToken true fresh st).1).isSome = true ∧
    (getToken true fresh st).2.cached = (getToken true fresh st).1 ∧
    (getToken true fresh st).2.sessionStore = (getToken true fresh st).1 := by
  unfold getToken
  rw [hc]
  cases st.sessionStore <;> simp

theorem getToken_non_browser_witness :
    getToken false "uuid-1" { cached := none, sessionStore := none }
      = (none, { cached := none, sessionStore := none }) ∧
    ((getToken true "uuid-1" { cached := none, sessionStore := none }).1).isSome
      = true :=
  let h := getToken_non_browser { cached := none, sessionStore := none }
    "uuid-1" rfl
  ⟨h.1, h.2.1⟩

/-- The whitespace class trimmed by JS `String.prototype.trim` (restricted
to the ASCII characters that can occur here). -/
def jsWhitespace (c : Char) : Bool :=
  c = ' ' || c = '\t' || c = '\n' || c = '\r' || c = '\x0b' || c = '\x0c'

/-- JS `text.trim()`: drop whitespace from both ends. -/
def jsTrim (cs : List Char) : List Char :=
  ((cs.dropWhile jsWhitespace).reverse.dropWhile jsWhitespace).reverse

/-- `responseText.trim().split("\n")` (state.js line 380): the chunk list a
progress tick sees; only the last chunk can be an incomplete line, because
the response text grows by appending. -/
def chunksOf (responseText : List Char) : List (List Char) :=
  splitOnChar '\n' (jsTrim responseText)

/-- One progress tick of the `eventHandler` closure inside `uploadFiles`
(state.js lines 377-395): the state is `(resp_idx, chunks fed so far)`;
`chunks.slice(resp_idx)` is visited in order, a chunk whose feed into the
socket pipeline succeeds advances `resp_idx` and is recorded, a chunk whose
feed throws (an incomplete line) leaves `resp_idx` alone and the loop moves
on.  `feedOk` abstracts whether `socket._callbacks.$event` parses the
chunk without throwing. -/
def tickStep (feedOk : List Char → Bool) (st : Nat × List (List Char))
    (responseText : List Char) : Nat × List (List Char) :=
  ((chunksOf responseText).drop st.1).foldl
    (fun ac chunk => if feedOk chunk then (ac.1 + 1, ac.2 ++ [chunk]) else ac)
    st

/-- A whole streamed upload response: successive progress ticks starting
from `resp_idx = 0` with nothing fed yet. -/
def runTicks (feedOk : List Char → Bool) (texts : List (List Char)) :
    Nat × List (List Char) :=
  texts.foldl (tickStep feedOk) (0, [])

theorem drop_append_of_le {α : Type} :
    ∀ (l₁ l₂ : List α) (r : Nat), r ≤ l₁.length →
      (l₁ ++ l₂).drop r = l₁.drop r ++ l₂ := by
  intro l₁
  induction l₁ with
  | nil =>
      intro l₂ r h
      simp only [List.length_nil, Nat.le_zero] at h
      subst h
      simp
  | cons a t ih =>
      intro l₂ r h
      cases r with
      | zero => simp
      | succ r => simpa using ih l₂ r (Nat.le_of_succ_le_succ h)

theorem take_drop_drop {α : Type} :
    ∀ (xs : List α) (r c : Nat), r ≤ c →
      (xs.take c).drop r ++ xs.drop c = xs.drop r := by
  intro xs
  induction xs with
  | nil => intro r c _; simp
  | cons x tail ih =>
      intro r c h
      cases c with
      | zero =>
          simp only [Nat.le_zero] at h
          subst h
          simp
      | succ c =>
          cases r with
          | zero => simp [List.take_append_drop]
          | succ r => simpa using ih r c (Nat.le_of_succ_le_succ h)

theorem seg_concat {α : Type} (L : List α) (r c m : Nat) (hrc : r ≤ c)
    (hcm : c ≤ m) :
    (L.take c).drop r ++ (L.take m).drop c = (L.take m).drop r := by
  have h1 : (L.take m).take c = L.take c := by
    rw [List.take_take, Nat.min_eq_left hcm]
  rw [← h1]
  exact take_drop_drop (L.take m) r c hrc

theorem foldl_feed_true (feedOk : List Char → Bool) :
    ∀ (seg : List (List Char)) (r : Nat) (fed : List (List Char)),
      (∀ l ∈ seg, feedOk l = true) →
      seg.foldl
        (fun ac chunk => if feedOk chunk then (ac.1 + 1, ac.2 ++ [chunk]) else ac)
        (r, fed) = (r + seg.length, fed ++ seg) := by
  intro seg
  induction seg with
  | nil => intro r fed _; simp
  | cons a l ih =>
      intro r fed h
      have ha : feedOk a = true := h a (List.mem_cons_self a l)
      rw [List.foldl_cons]
      simp only [ha, if_pos]
      rw [ih (r + 1) (fed ++ [a]) (fun x hx => h x (List.mem_cons_of_mem a hx))]
      simp only [Prod.mk.injEq, List.length_cons]
      constructor
      · omega
      · simp

theorem foldl_feed_false (feedOk : List Char → Bool) :
    ∀ (seg : List (List Char)) (st : Nat × List (List Char)),
      (∀ l ∈ seg, feedOk l = false) →
      seg.foldl
        (fun ac chunk => if feedOk chunk then (ac.1 + 1, ac.2 ++ [chunk]) else ac)
        st = st := by
  intro seg
  induction seg with
  | nil => intro st _; rfl
  | cons a l ih =>
      intro st h
      have ha : feedOk a = false := h a (List.mem_cons_self a l)
      rw [List.foldl_cons]
      simp only [ha, Bool.false_eq_true, if_neg, not_false_iff]
      exact ih st (fun x hx => h x (List.mem_cons_of_mem a hx))

theorem tickStep_correct (feedOk : List Char → Bool) (L : List (List Char))
    (hL : ∀ l ∈ L, feedOk l = true) (t : List Char) (c : Nat)
    (P : List (List Char)) (hchunks : chunksOf t = L.take c ++ P)
    (hP : ∀ p ∈ P, feedOk p = false) (hcL : c ≤ L.length)
    (r : Nat) (fed : List (List Char)) (hrc : r ≤ c) :
    tickStep feedOk (r, fed) t = (c, fed ++ (L.take c).drop r) := by
  unfold tickStep
  rw [hchunks]
  have hlen : (L.take c).length = c := by
    rw [List.length_take]
    exact Nat.min_eq_left hcL
  rw [drop_append_of_le (L.take c) P r (by rw [hlen]; exact hrc)]
  rw [List.foldl_append]
  rw [foldl_feed_true feedOk ((L.take c).drop r) r fed
    (fun x hx => hL x (List.take_subset c L (List.drop_subset r (L.take c) hx)))]
  rw [foldl_feed_false feedOk P _ hP]
  simp only [Prod.mk.injEq]
  refine ⟨?_, by first | rfl | trivial⟩
  rw [List.length_drop, hlen]
  omega

/-- The cursor position after a run of ticks whose prefix lengths end at
the given value (plumbing for the induction below). -/
def lastC : List (List Char × Nat) → Nat → Nat
  | [], r => r
  | tc :: rest, _r => lastC rest tc.2

theorem lastC_ge :
    ∀ (tcs : List (List Char × Nat)) (r : Nat),
      List.Chain' (fun a b => a.2 ≤ b.2) tcs →
      (∀ tc ∈ tcs.head?, r ≤ tc.2) → r ≤ lastC tcs r := by
  intro tcs
  induction tcs with
  | nil => intro r _ _; exact Nat.le_refl r
  | cons tc rest ih =>
      intro r hmono hr
      have h1 : r ≤ tc.2 := hr tc rfl
      have h2 := (List.chain'_cons'.mp hmono)
      exact Nat.le_trans h1 (ih tc.2 h2.2 h2.1)

theorem runTicksAux (feedOk : List Char → Bool) (L : List (List Char))
    (hL : ∀ l ∈ L, feedOk l = true) :
    ∀ (tcs : List (List Char × Nat)) (r : Nat) (fed : List (List Char)),
      (∀ tc ∈ tcs, ∃ P, chunksOf tc.1 = L.take tc.2 ++ P ∧
        (∀ p ∈ P, feedOk p = false) ∧ tc.2 ≤ L.length) →
      List.Chain' (fun a b => a.2 ≤ b.2) tcs →
      (∀ tc ∈ tcs.head?, r ≤ tc.2) →
      (tcs.map Prod.fst).foldl (tickStep feedOk) (r, fed)
        = (lastC tcs r, fed ++ (L.take (lastC tcs r)).drop r) := by
  intro tcs
  induction tcs with
  | nil =>
      intro r fed _ _ _
      simp only [List.map_nil, List.foldl_nil, lastC]
      rw [List.drop_eq_nil_of_le (by rw [List.length_take]; exact Nat.min_le_left r L.length)]
      simp
  | cons tc rest ih =>
      intro r fed htc hmono hr
      obtain ⟨P, hchunks, hP, hcL⟩ := htc tc (List.mem_cons_self tc rest)
      have hrc : r ≤ tc.2 := hr tc rfl
      have hchain := List.chain'_cons'.mp hmono
      have hm : tc.2 ≤ lastC rest tc.2 := lastC_ge rest tc.2 hchain.2 hchain.1
      rw [List.map_cons, List.foldl_cons]
      rw [tickStep_correct feedOk L hL tc.1 tc.2 P hchunks hP hcL r fed hrc]
      rw [ih tc.2 (fed ++ (L.take tc.2).drop r)
        (fun x hx => htc x (List.mem_cons_of_mem tc hx)) hchain.2 hchain.1]
      simp only [lastC]
      rw [List.append_assoc, seg_concat L r tc.2 (lastC rest tc.2) hrc hm]

/-- C6. Streaming cursor correctness: for a streamed upload response
delivered as progress ticks carrying growing prefixes of the
newline-delimited response text — each tick's chunk list being some prefix
of the complete lines `L` (every complete line feeding successfully)
followed by leftover incomplete chunks (whose feed throws), with the known
prefix only growing and the last tick seeing all of `L` — the ticks feed
exactly the lines of `L`, each exactly once, in order, and leave the cursor
at `L.length`. -/
theorem streaming_cursor (feedOk : List Char → Bool) (L : List (List Char))
    (tcs : List (List Char × Nat))
    (hL : ∀ l ∈ L, feedOk l = true)
    (htc : ∀ tc ∈ tcs, ∃ P, chunksOf tc.1 = L.take tc.2 ++ P ∧
      (∀ p ∈ P, feedOk p = false) ∧ tc.2 ≤ L.length)
    (hmono : List.Chain' (fun a b => a.2 ≤ b.2) tcs)
    (hlast : lastC tcs 0 = L.length) :
    runTicks feedOk (tcs.map Prod.fst) = (L.length, L) := by
  unfold runTicks
  rw [runTicksAux feedOk L hL tcs 0 [] htc hmono (fun tc _ => Nat.zero_le _)]
  rw [hlast]
  simp [List.take_length]

/-- The first complete line of the example response. -/
def lineA : List Char := "\x7b\"a\":1\x7d".data

/-- The second complete line of the example response. -/
def lineB : List Char := "\x7b\"b\":2\x7d".data

/-- The socket pipeline accepts exactly the two valid JSON lines. -/
def feedOkDemo (l : List Char) : Bool := l == lineA || l == lineB

/-- The first tick's response text: split mid-way through the second line. -/
def tick1Text : List Char := "\x7b\"a\":1\x7d\n\x7b\"b".data

/-- The second tick's response text: the completed response. -/
def tick2Text : List Char := "\x7b\"a\":1\x7d\n\x7b\"b\":2\x7d\n".data

theorem streaming_cursor_witness :
    runTicks feedOkDemo [tick1Text, tick2Text] = (2, [lineA, lineB]) :=
  streaming_cursor feedOkDemo [lineA, lineB] [(tick1Text, 1), (tick2Text, 2)]
    (by decide)
    (by
      intro tc htc
      simp only [List.mem_cons, List.not_mem_nil, or_false] at htc
      rcases htc with h | h
      · subst h
        exact ⟨["\x7b\"b".data], by decide, by decide, by decide⟩
      · subst h
        exact ⟨[], by decide, by decide, by decide⟩)
    (by simp [List.chain'_cons, List.chain'_singleton])
    (by decide)

end StateJs
